import Mathlib

/-!
# Verification of the NNCF accuracy-aware training control loop

Shallow embedding of the adaptive compression-rate search loop of
`nncf/common/accuracy_aware_training/training_loop.py` and the runner of
`beta/nncf/tensorflow/accuracy_aware_training/runner.py`.

Real numbers of the Python code are modelled as rationals (`ℚ`); Python
dictionaries built from lists of pairs are modelled as association lists
with last-write-wins insertion; the external training / validation
callables are modelled as oracle functions; `scipy.interpolate.interp1d`
(an external library, not part of the repository) is modelled as a
function parameter producing the fitted curve, constrained where needed
by its documented contract (the interpolant passes through the data
points).
-/

namespace NNCF

/-! ## Python dictionary model

`dict(pairs)` built from an association list: later occurrences of a key
overwrite earlier ones, position of the first insertion is kept.  All
dictionaries manipulated by the code are built through `dictInsert` from
the empty dictionary, so keys are unique and replacing the first
occurrence of a key coincides with Python semantics. -/

/-- Python `d[k] = v` on an association-list dictionary. -/
def dictInsert : List (ℚ × ℚ) → ℚ → ℚ → List (ℚ × ℚ)
  | [], k, v => [(k, v)]
  | p :: rest, k, v => if p.1 = k then (k, v) :: rest else p :: dictInsert rest k v

/-- Python `dict(pairs)`: fold the pair list into a dictionary, later
pairs overwriting earlier ones. -/
def dictOfList (l : List (ℚ × ℚ)) : List (ℚ × ℚ) :=
  l.foldl (fun d p => dictInsert d p.1 p.2) []

/-- Python `d.get(k)`: value at the first occurrence of key `k`. -/
def dictGet : List (ℚ × ℚ) → ℚ → Option ℚ
  | [], _ => none
  | p :: rest, k => if p.1 = k then some p.2 else dictGet rest k

/-- `np.sign` on rationals: `1`, `-1` or `0`. -/
def npSign (x : ℚ) : ℚ :=
  if 0 < x then 1 else if x < 0 then -1 else 0

/-! ## Runner state

State of `TFAccuracyAwareTrainingRunner` (beta/nncf/tensorflow/
accuracy_aware_training/runner.py); the configuration fields and
counters are inherited from `BaseAccuracyAwareTrainingRunner`.  The
field `accuracy_bugdet` keeps the spelling used by the source.  The
field `_compressed_training_history` is the raw append-only list of
`(compression_rate, accuracy_budget)` records. -/

structure Runner where
  _compressed_training_history : List (ℚ × ℚ)
  minimal_tolerable_accuracy : ℚ
  best_val_metric_value : ℚ
  current_val_metric_value : Option ℚ
  training_epoch_count : ℕ
  cumulative_epoch_count : ℕ
  compression_rate_target : Option ℚ
  compression_rate_step : ℚ
  was_compression_increased_on_prev_step : Option ℚ
  step_reduction_factor : ℚ
  maximal_accuracy_drop : ℚ
  minimal_compression_rate : ℚ
  maximal_compression_rate : ℚ
  minimal_compression_rate_step : ℚ
  maximal_total_epochs : ℕ
  patience_epochs : ℕ
  is_higher_metric_better : Bool
  accuracy_bugdet : ℚ
  deriving DecidableEq, Repr

/-- `runner.compressed_training_history` (property, runner.py line 109):
`dict(self._compressed_training_history)` — a fresh dictionary built
from the raw record list, last write wins. -/
def compressed_training_history (r : Runner) : List (ℚ × ℚ) :=
  dictOfList r._compressed_training_history

/-- `update_training_history` (runner.py line 105): append the record
`(compression_rate, best_metric_value - minimal_tolerable_accuracy)` to
the raw history list. -/
def update_training_history (r : Runner) (compression_rate best_metric_value : ℚ) : Runner :=
  { r with _compressed_training_history :=
      r._compressed_training_history ++
        [(compression_rate, best_metric_value - r.minimal_tolerable_accuracy)] }

/-- The best-metric test of `validate` (runner.py line 79):
`is_best = (not is_higher_metric_better) != (val > best)`. -/
def is_best_metric (is_higher_metric_better : Bool) (val best : ℚ) : Bool :=
  (!is_higher_metric_better) != decide (val > best)

/-- `validate` (runner.py line 77): update `best_val_metric_value` when
the freshly computed metric is better.  The metric value itself comes
from the external validation callable and is passed in. -/
def validate (r : Runner) (val_metric_value : ℚ) : Runner :=
  if is_best_metric r.is_higher_metric_better val_metric_value r.best_val_metric_value then
    { r with best_val_metric_value := val_metric_value }
  else r

/-- `reset_training` (runner.py line 88): zero the per-phase epoch
counter and set `best_val_metric_value` to the constant `0`. -/
def reset_training (r : Runner) : Runner :=
  { r with training_epoch_count := 0, best_val_metric_value := 0 }

/-- Error message of Python `max()` on an empty sequence. -/
def emptyHistoryMsg : String := "max() arg is an empty sequence"

/-- Python `max(list)`: `ValueError` on the empty list, otherwise the
maximum. -/
def pyMax : List ℚ → Except String ℚ
  | [] => Except.error emptyHistoryMsg
  | x :: xs => Except.ok (xs.foldl max x)

/-- `load_best_checkpoint` (runner.py line 113): filter the raw record
list for entries with non-negative accuracy budget, take the maximal
rate among them (Python `max()` raises `ValueError` on an empty list,
which propagates to the caller), and restore the checkpoint of that rate.
The restored rate is returned. -/
def load_best_checkpoint (r : Runner) : Except String ℚ :=
  let possible_checkpoint_rates :=
    (r._compressed_training_history.filter (fun p => decide (0 ≤ p.2))).map (fun p => p.1)
  pyMax possible_checkpoint_rates

/-- `train_epoch` (runner.py line 49), modelled under the search-loop
configuration: `AdaptiveCompressionTrainingLoop.run` sets
`validate_every_n_epochs = 1` just before the search loop
(training_loop.py line 103), so `training_epoch_count % 1 == 0` holds
and validation runs on every epoch.  The external validation callable
is the oracle `vf`, invoked at the current cumulative epoch index.
Returns the freshly computed metric together with the updated state
(both epoch counters incremented by one). -/
def train_epoch (vf : ℕ → ℚ) (r : Runner) : ℚ × Runner :=
  let val := vf r.cumulative_epoch_count
  let r1 := validate r val
  let r2 := { r1 with current_val_metric_value := some val }
  let r3 := { r2 with training_epoch_count := r2.training_epoch_count + 1,
                      cumulative_epoch_count := r2.cumulative_epoch_count + 1 }
  (val, r3)

/-! ## Step-size predictor (training_loop.py lines 168-211) -/

/-- The interpolation kind passed to `scipy.interpolate.interp1d`. -/
inductive InterpKind
  | linear
  | cubic
  deriving DecidableEq, Repr

/-- `np.linspace(a, b, num, endpoint=True)`: `num` evenly spaced points
from `a` to `b`, both endpoints included. -/
def linspace (a b : ℚ) (num : ℕ) : List ℚ :=
  (List.range num).map (fun i : ℕ => a + (b - a) * (i : ℚ) / ((num : ℚ) - 1))

/-- Accumulator of `np.argmin`: walk the remaining list, carrying the
index and value of the best element seen so far; a strictly smaller
value replaces the carried best, so the first minimum wins. -/
def npArgminAux : List ℚ → ℕ → ℕ → ℚ → ℕ
  | [], _, besti, _ => besti
  | x :: xs, i, besti, bestv =>
      if x < bestv then npArgminAux xs (i + 1) i x else npArgminAux xs (i + 1) besti bestv

/-- `np.argmin`: index of the first minimal element (`0` on the empty
list, which `np.argmin` rejects; the code always applies it to the
1000-point sample list). -/
def npArgmin : List ℚ → ℕ
  | [] => 0
  | x :: xs => npArgminAux xs 1 0 x

/-- The boundary augmentation of the training history performed inside
`interpolate_compression_step_update` (training_loop.py lines 192-195):
a fresh dictionary is built from the raw history records (the
`compressed_training_history` property), then
`training_history[minimal_compression_rate] = maximal_accuracy_drop` and
`training_history[maximal_compression_rate] =
-full_compression_factor * maximal_accuracy_drop` are written into that
local dictionary. -/
def augmentedTrainingHistory (r : Runner) (minRate maxRate factor : ℚ) : List (ℚ × ℚ) :=
  dictInsert (dictInsert (compressed_training_history r) minRate r.maximal_accuracy_drop)
    maxRate (-factor * r.maximal_accuracy_drop)

/-- `interpolate_compression_step_update` (training_loop.py line 185).
`interp1dFn` stands for `scipy.interpolate.interp1d` (external library):
given the interpolation kind and the data points it returns the fitted
accuracy-budget-versus-rate curve.  The keyword parameters
`num_curve_pts`, `full_compression_factor`, `minimal_compression_rate`
and `maximal_compression_rate` are explicit here; every call site uses
the Python defaults `1000`, `10`, `0.0`, `1.0`.  Returns the predicted
rate delta together with the updated runner (only
`compression_rate_step` changes — the boundary points are written into
the local dictionary only, never into the runner history). -/
def interpolate_compression_step_update (interp1dFn : InterpKind → List (ℚ × ℚ) → ℚ → ℚ)
    (r : Runner) (current_compression_rate : ℚ) (num_curve_pts : ℕ)
    (full_compression_factor minRate maxRate : ℚ) : ℚ × Runner :=
  let training_history := augmentedTrainingHistory r minRate maxRate full_compression_factor
  let compression_rates := training_history.map (fun p => p.1)
  let interp_kind := if compression_rates.length < 4 then InterpKind.linear else InterpKind.cubic
  let curve := interp1dFn interp_kind training_history
  let rate_interval := linspace minRate maxRate num_curve_pts
  let acc_budget_values := rate_interval.map curve
  let target_compression_rate :=
    rate_interval.getD (npArgmin (acc_budget_values.map (fun v => |v|))) 0
  match r.compression_rate_target with
  | none =>
      (target_compression_rate - current_compression_rate,
       { r with compression_rate_step := |target_compression_rate - current_compression_rate| })
  | some t =>
      (target_compression_rate - t,
       { r with compression_rate_step := |target_compression_rate - t| })

/-- `uniform_decrease_compression_step_update` (training_loop.py line
177): shrink the step by `step_reduction_factor` when the sign flag of
the previous adjustment is set and differs from the sign of the current
best accuracy budget, then return `sign * compression_rate_step`. -/
def uniform_decrease_compression_step_update (r : Runner) : ℚ × Runner :=
  let best_accuracy_budget_sign := npSign (r.best_val_metric_value - r.minimal_tolerable_accuracy)
  let r1 :=
    match r.was_compression_increased_on_prev_step with
    | some s =>
        if s ≠ best_accuracy_budget_sign then
          { r with compression_rate_step := r.compression_rate_step * r.step_reduction_factor }
        else r
    | none => r
  (best_accuracy_budget_sign * r1.compression_rate_step, r1)

/-- `update_target_compression_rate` (training_loop.py line 153).  The
loop calls `determine_compression_rate_step_value` with the default
`stepping_mode` equal to `interpolate`, so the interpolation-based update is
used with its keyword defaults.  On the first call (target is `None`)
the target becomes `current + step`; afterwards the target moves by a
step only once `training_epoch_count ≥ patience_epochs`.  Returns the
`was_compression_rate_changed` flag with the updated runner. -/
def update_target_compression_rate (interp1dFn : InterpKind → List (ℚ × ℚ) → ℚ → ℚ)
    (r : Runner) (current_compression_rate : ℚ) : Bool × Runner :=
  let best_accuracy_budget := r.best_val_metric_value - r.minimal_tolerable_accuracy
  match r.compression_rate_target with
  | none =>
      let q := interpolate_compression_step_update interp1dFn r current_compression_rate 1000 10 0 1
      (true, { q.2 with
                compression_rate_target := some (current_compression_rate + q.1),
                was_compression_increased_on_prev_step := some (npSign best_accuracy_budget) })
  | some t =>
      if r.patience_epochs ≤ r.training_epoch_count then
        let q := interpolate_compression_step_update interp1dFn r current_compression_rate 1000 10 0 1
        (true, { q.2 with
                  compression_rate_target := some (t + q.1),
                  was_compression_increased_on_prev_step := some (npSign best_accuracy_budget) })
      else (false, r)

/-! ## The search loop (`AdaptiveCompressionTrainingLoop.run`,
training_loop.py lines 104-140)

The `while` loop of `run` is modelled as the recursion `searchLoop`; one
body execution is `searchIter`.  External side effects relevant to the
claims are recorded in a trace of events: entering a loop iteration,
running a training epoch, and loading the best checkpoint during
finalization. -/

/-- Observable events of the search loop. -/
inductive Event
  | enterIteration
  | trainEpoch (cumulative_epoch : ℕ)
  | loadBestCheckpoint (rate : ℚ)
  deriving DecidableEq, Repr

/-- Number of training epochs recorded in a trace. -/
def countTrainEpochs (tr : List Event) : ℕ :=
  tr.countP (fun e => match e with | Event.trainEpoch _ => true | _ => false)

/-- Message of the `RuntimeError` raised at training_loop.py line 120. -/
def infeasibleMsg : String :=
  "Cannot produce a compressed model with a specified minimal tolerable accuracy"

/-- Placeholder message for the branch where the changed-flag is set but
no target rate exists; `update_target_compression_rate` always sets the
target when it reports a change, so this branch is unreachable. -/
def unreachableTargetMsg : String := "target compression rate is unset"

/-- Result of one execution of the loop body. -/
inductive IterResult
  | fatal (msg : String)
  | earlyReturn (r : Runner)
  | next (tr : List Event) (r : Runner) (ctrl : ℚ)
  deriving DecidableEq, Repr

/-- Outcome of the search loop. -/
inductive LoopOutcome
  | maxRateReached (r : Runner)
  | finished (r : Runner) (loaded_rate : ℚ)
  deriving DecidableEq, Repr

/-- Lines 107-109 of training_loop.py: when a target rate is already
set, snapshot the pair (target rate, best metric value) into the
training history before the target is re-predicted. -/
def historySnapshot (r : Runner) : Runner :=
  match r.compression_rate_target with
  | some t => update_training_history r t r.best_val_metric_value
  | none => r

/-- Lines 134-137 of training_loop.py: run one training epoch via the
runner and store the resulting accuracy budget
(`compressed_model_accuracy - minimal_tolerable_accuracy`) in the field
spelled `accuracy_bugdet` by the source. -/
def trainStep (vf : ℕ → ℚ) (r : Runner) (ctrl : ℚ) : IterResult :=
  let q := train_epoch vf r
  let r4 := { q.2 with accuracy_bugdet := q.1 - q.2.minimal_tolerable_accuracy }
  IterResult.next [Event.trainEpoch r.cumulative_epoch_count] r4 ctrl

/-- One execution of the `while` body (training_loop.py lines 107-137):
history snapshot, target-rate update, bound checks on a changed target
(fatal error below `minimal_compression_rate`, early successful return
above `maximal_compression_rate`, otherwise reset the phase and move the
controller to the new target), then one training epoch. -/
def searchIter (interp1dFn : InterpKind → List (ℚ × ℚ) → ℚ → ℚ) (vf : ℕ → ℚ)
    (r : Runner) (ctrl : ℚ) : IterResult :=
  let upd := update_target_compression_rate interp1dFn (historySnapshot r) ctrl
  let r2 := upd.2
  if upd.1 then
    match r2.compression_rate_target with
    | none => IterResult.fatal unreachableTargetMsg
    | some t =>
        if t < r2.minimal_compression_rate then IterResult.fatal infeasibleMsg
        else if r2.maximal_compression_rate < t then IterResult.earlyReturn r2
        else trainStep vf (reset_training r2) t
  else trainStep vf r2 ctrl

def searchLoop (interp1dFn : InterpKind → List (ℚ × ℚ) → ℚ → ℚ) (vf : ℕ → ℚ)
    (r : Runner) (ctrl : ℚ) : List Event × Except String LoopOutcome :=
  if h : r.minimal_compression_rate_step ≤ r.compression_rate_step ∧
         r.cumulative_epoch_count < r.maximal_total_epochs then
    match hIter : searchIter interp1dFn vf r ctrl with
    | IterResult.fatal msg => ([Event.enterIteration], Except.error msg)
    | IterResult.earlyReturn r2 =>
        ([Event.enterIteration], Except.ok (LoopOutcome.maxRateReached r2))
    | IterResult.next tr r' ctrl' =>
        let rest := searchLoop interp1dFn vf r' ctrl'
        (Event.enterIteration :: (tr ++ rest.1), rest.2)
  else
    match load_best_checkpoint r with
    | Except.ok rate => ([Event.loadBestCheckpoint rate], Except.ok (LoopOutcome.finished r rate))
    | Except.error msg => ([], Except.error msg)
  termination_by r.maximal_total_epochs - r.cumulative_epoch_count
  decreasing_by
    have hv : ∀ (rr : Runner) (v : ℚ),
        (validate rr v).cumulative_epoch_count = rr.cumulative_epoch_count ∧
          (validate rr v).maximal_total_epochs = rr.maximal_total_epochs := by
      intro rr v; unfold validate; split <;> exact ⟨rfl, rfl⟩
    have hte : ∀ (rr : Runner),
        (train_epoch vf rr).2.cumulative_epoch_count = rr.cumulative_epoch_count + 1 ∧
          (train_epoch vf rr).2.maximal_total_epochs = rr.maximal_total_epochs := by
      intro rr
      obtain ⟨e1, e2⟩ := hv rr (vf rr.cumulative_epoch_count)
      exact ⟨by simp [train_epoch, e1], by simp [train_epoch, e2]⟩
    have hint : ∀ (rr : Runner) (c : ℚ),
        (interpolate_compression_step_update interp1dFn rr c 1000 10 0 1).2.cumulative_epoch_count
            = rr.cumulative_epoch_count ∧
          (interpolate_compression_step_update interp1dFn rr c 1000 10 0 1).2.maximal_total_epochs
            = rr.maximal_total_epochs := by
      intro rr c; unfold interpolate_compression_step_update; split <;> exact ⟨rfl, rfl⟩
    have hup : ∀ (rr : Runner) (c : ℚ),
        (update_target_compression_rate interp1dFn rr c).2.cumulative_epoch_count
            = rr.cumulative_epoch_count ∧
          (update_target_compression_rate interp1dFn rr c).2.maximal_total_epochs
            = rr.maximal_total_epochs := by
      intro rr c
      unfold update_target_compression_rate
      rcases hsn : rr.compression_rate_target with _ | t
      · obtain ⟨e1, e2⟩ := hint rr c
        exact ⟨by simp [e1], by simp [e2]⟩
      · by_cases hp : rr.patience_epochs ≤ rr.training_epoch_count
        · obtain ⟨e1, e2⟩ := hint rr c
          exact ⟨by simp [hp, e1], by simp [hp, e2]⟩
        · simp [hp]
    have hhs : (historySnapshot r).cumulative_epoch_count = r.cumulative_epoch_count ∧
        (historySnapshot r).maximal_total_epochs = r.maximal_total_epochs := by
      unfold historySnapshot; split <;> exact ⟨rfl, rfl⟩
    have hkey : r'.cumulative_epoch_count = r.cumulative_epoch_count + 1 ∧
        r'.maximal_total_epochs = r.maximal_total_epochs := by
      unfold searchIter at hIter
      set upd := update_target_compression_rate interp1dFn (historySnapshot r) ctrl with hu
      obtain ⟨u1, u2⟩ := hup (historySnapshot r) ctrl
      rw [← hu] at u1 u2
      by_cases hb : upd.1
      · simp only [hb, if_true] at hIter
        rcases ht : upd.2.compression_rate_target with _ | t <;> simp only [ht] at hIter
        · cases hIter
        · by_cases h1 : t < upd.2.minimal_compression_rate
          · simp [h1] at hIter
          · by_cases h2 : upd.2.maximal_compression_rate < t
            · simp [h1, h2] at hIter
            · simp only [h1, h2, if_false] at hIter
              set X := reset_training upd.2 with hX
              simp only [trainStep] at hIter
              cases hIter
              obtain ⟨e1, e2⟩ := hte X
              have x1 : X.cumulative_epoch_count = upd.2.cumulative_epoch_count := by
                rw [hX]; rfl
              have x2 : X.maximal_total_epochs = upd.2.maximal_total_epochs := by
                rw [hX]; rfl
              constructor
              · simp [e1, x1, u1, hhs.1]
              · simp [e2, x2, u2, hhs.2]
      · simp only [hb, if_false, trainStep] at hIter
        cases hIter
        obtain ⟨e1, e2⟩ := hte upd.2
        constructor
        · simp [e1, u1, hhs.1]
        · simp [e2, u2, hhs.2]
    omega

/-! ## Concrete example states

A neutral runner state used by the concrete witnesses and
counterexamples; the rate bounds `0.05` / `0.95` are the constructor
defaults of `TFAccuracyAwareTrainingRunner`. -/

/-- A concrete runner state: empty history, counters at zero, no target
rate yet, the default rate bounds. -/
def baseRunner : Runner where
  _compressed_training_history := []
  minimal_tolerable_accuracy := 0
  best_val_metric_value := 0
  current_val_metric_value := none
  training_epoch_count := 0
  cumulative_epoch_count := 0
  compression_rate_target := none
  compression_rate_step := 1/2
  was_compression_increased_on_prev_step := none
  step_reduction_factor := 1/2
  maximal_accuracy_drop := 1
  minimal_compression_rate := 1/20
  maximal_compression_rate := 19/20
  minimal_compression_rate_step := 1/100
  maximal_total_epochs := 100
  patience_epochs := 3
  is_higher_metric_better := true
  accuracy_bugdet := 0

/-- A constant curve model of `interp1d`, used by concrete witnesses
(any function of the right type is admissible for the external
library). -/
def constCurve : InterpKind → List (ℚ × ℚ) → ℚ → ℚ := fun _ _ _ => 37

/-- A runner carrying the example history of the specification:
`{0.1 → +2.0, 0.3 → +0.5, 0.5 → -1.0}`. -/
def specExampleRunner : Runner :=
  { baseRunner with
    _compressed_training_history := [(1/10, 2), (3/10, 1/2), (1/2, -1)] }

/-- A runner whose epoch budget is exhausted
(`cumulative_epoch_count = maximal_total_epochs = 100`) and whose
history holds one feasible record. -/
def finishedRunner : Runner :=
  { baseRunner with
    cumulative_epoch_count := 100,
    _compressed_training_history := [(1/10, 2)] }

/-- The state produced by the first target update on `baseRunner` with
the constant curve model: the predicted target rate is `0`, below the
minimal compression rate `0.05`. -/
def infeasibleTargetRunner : Runner :=
  { baseRunner with
    compression_rate_step := 1/2,
    compression_rate_target := some 0,
    was_compression_increased_on_prev_step := some 0 }

/-- A constant validation oracle used by concrete witnesses. -/
def constMetric : ℕ → ℚ := fun _ => 0

/-! ## Lemmas about the dictionary model -/

lemma dictGet_dictInsert_self (d : List (ℚ × ℚ)) (k v : ℚ) :
    dictGet (dictInsert d k v) k = some v := by
  induction d with
  | nil => simp [dictInsert, dictGet]
  | cons p rest ih =>
      by_cases h : p.1 = k
      · simp [dictInsert, dictGet, h]
      · simp [dictInsert, dictGet, h, ih]

lemma dictGet_dictInsert_ne (d : List (ℚ × ℚ)) (k v k2 : ℚ) (h : k ≠ k2) :
    dictGet (dictInsert d k v) k2 = dictGet d k2 := by
  induction d with
  | nil => simp [dictInsert, dictGet, h]
  | cons p rest ih =>
      by_cases hp : p.1 = k
      · simp [dictInsert, dictGet, hp, h]
      · simp [dictInsert, dictGet, hp, ih]

lemma mem_of_dictGet (d : List (ℚ × ℚ)) (k v : ℚ) (h : dictGet d k = some v) :
    (k, v) ∈ d := by
  induction d with
  | nil => simp [dictGet] at h
  | cons p rest ih =>
      by_cases hp : p.1 = k
      · simp only [dictGet, hp, if_true, Option.some.injEq] at h
        have hpv : p = (k, v) := by
          obtain ⟨a, b⟩ := p
          simp only [Prod.mk.injEq]
          exact ⟨hp, h⟩
        rw [← hpv]
        exact List.mem_cons_self p rest
      · simp only [dictGet, hp, if_false] at h
        right
        exact ih h

lemma dictOfList_append (l : List (ℚ × ℚ)) (p : ℚ × ℚ) :
    dictOfList (l ++ [p]) = dictInsert (dictOfList l) p.1 p.2 := by
  simp [dictOfList, List.foldl_append]

/-- The augmented history maps rate `0` to `maximal_accuracy_drop`: the
outer insertion at rate `1` does not disturb the key `0`, and the inner
insertion at key `0` overwrites any previously recorded budget there. -/
lemma dictGet_augmented_zero (r : Runner) :
    dictGet (augmentedTrainingHistory r 0 1 10) 0 = some r.maximal_accuracy_drop := by
  unfold augmentedTrainingHistory
  rw [dictGet_dictInsert_ne _ _ _ _ (by norm_num : (1 : ℚ) ≠ 0)]
  exact dictGet_dictInsert_self _ _ _

/-- The augmented history maps rate `1` to
`-full_compression_factor * maximal_accuracy_drop` (factor `10`). -/
lemma dictGet_augmented_one (r : Runner) :
    dictGet (augmentedTrainingHistory r 0 1 10) 1 = some (-10 * r.maximal_accuracy_drop) := by
  unfold augmentedTrainingHistory
  exact dictGet_dictInsert_self _ _ _

/-! ## Claim C4: history round trip -/

/-- C4, counterexample.  The claim states that after
`update_training_history(r, b)` the mapping contains the entry `r → b`.
The code stores `b - minimal_tolerable_accuracy` (the accuracy budget),
not `b` itself: with `minimal_tolerable_accuracy = 1`, writing the
metric value `2` at rate `1/2` stores `1`, not `2`. -/
theorem claim_C4_counterexample :
    dictGet (compressed_training_history
        (update_training_history { baseRunner with minimal_tolerable_accuracy := 1 } (1/2) 2))
        (1/2) = some 1 ∧
      (some (1 : ℚ) ≠ some (2 : ℚ)) := by
  constructor
  · norm_num [update_training_history, compressed_training_history, dictOfList, dictInsert,
      dictGet, baseRunner]
  · simp

/-- C4, amended: after `update_training_history(r, b)` the mapping
`compressed_training_history` contains the entry
`r → b - minimal_tolerable_accuracy`; because the fresh record is
appended at the end of the list and the dictionary construction lets
later records overwrite earlier ones, the most recently written value
wins for a duplicated rate `r`. -/
theorem claim_C4 (st : Runner) (r b : ℚ) :
    dictGet (compressed_training_history (update_training_history st r b)) r
      = some (b - st.minimal_tolerable_accuracy) := by
  simp only [compressed_training_history, update_training_history]
  rw [dictOfList_append]
  exact dictGet_dictInsert_self _ _ _

/-! ## Claim C5: the synthetic boundary points are not persisted -/

/-- C5, counterexample.  The claim states that once interpolation has
been invoked, the runner history always contains the boundary points
`0.0 → +drop` and `1.0 → -10*drop`.  In the code,
`runner.compressed_training_history` is a property returning a fresh
dictionary, so the boundary writes inside
`interpolate_compression_step_update` mutate only that local dictionary:
invoking interpolation on a runner with an empty history leaves the
history empty, with neither boundary key present. -/
theorem claim_C5_counterexample :
    dictGet (compressed_training_history
        ((interpolate_compression_step_update constCurve baseRunner (1/2) 1000 10 0 1).2)) 0
        = none ∧
      dictGet (compressed_training_history
        ((interpolate_compression_step_update constCurve baseRunner (1/2) 1000 10 0 1).2)) 1
        = none := by
  constructor
  · rfl
  · rfl

/-- C5, amended: the two synthetic boundary points `0.0 →
+maximal_accuracy_drop` and `1.0 → -10*maximal_accuracy_drop` are
present in the local augmented dictionary used by each interpolation
call to fit the curve, while the runner training history itself is
left unchanged by the call (so the boundary points need not appear in
it afterwards). -/
theorem claim_C5 (r : Runner) (f : InterpKind → List (ℚ × ℚ) → ℚ → ℚ) (current : ℚ) :
    dictGet (augmentedTrainingHistory r 0 1 10) 0 = some r.maximal_accuracy_drop ∧
      dictGet (augmentedTrainingHistory r 0 1 10) 1 = some (-10 * r.maximal_accuracy_drop) ∧
      (interpolate_compression_step_update f r current 1000 10 0 1).2._compressed_training_history
        = r._compressed_training_history := by
  refine ⟨dictGet_augmented_zero r, dictGet_augmented_one r, ?_⟩
  unfold interpolate_compression_step_update
  rcases h : r.compression_rate_target with _ | t <;> simp [h]

/-! ## Claim C6: boundary values of the fitted curve -/

/-- C6: for any training history, any curve that interpolates the
boundary-augmented history (the documented contract of
`scipy.interpolate.interp1d`, for the linear as well as the cubic kind)
evaluates to exactly `maximal_accuracy_drop` at rate `0.0` and to
exactly `-10 * maximal_accuracy_drop` at rate `1.0`, because the two
boundary writes put exactly those values at the keys `0.0` and `1.0`
of the augmented dictionary. -/
theorem claim_C6 (r : Runner) (curve : ℚ → ℚ)
    (hc : ∀ p ∈ augmentedTrainingHistory r 0 1 10, curve p.1 = p.2) :
    curve 0 = r.maximal_accuracy_drop ∧ curve 1 = -10 * r.maximal_accuracy_drop := by
  have h0 : ((0 : ℚ), r.maximal_accuracy_drop) ∈ augmentedTrainingHistory r 0 1 10 :=
    mem_of_dictGet _ _ _ (dictGet_augmented_zero r)
  have h1 : ((1 : ℚ), -10 * r.maximal_accuracy_drop) ∈ augmentedTrainingHistory r 0 1 10 :=
    mem_of_dictGet _ _ _ (dictGet_augmented_one r)
  exact ⟨hc _ h0, hc _ h1⟩

/-- C6, witness: the interpolation contract is discharged at the
concrete runner `baseRunner` (`maximal_accuracy_drop = 1`) by the
explicit straight line `t ↦ 1 - 11*t` through the two boundary
points. -/
theorem claim_C6_witness :
    (∀ p ∈ augmentedTrainingHistory baseRunner 0 1 10,
        (fun t : ℚ => 1 - 11 * t) p.1 = p.2) ∧
      ((fun t : ℚ => 1 - 11 * t) 0 = baseRunner.maximal_accuracy_drop ∧
        (fun t : ℚ => 1 - 11 * t) 1 = -10 * baseRunner.maximal_accuracy_drop) := by
  have haug : augmentedTrainingHistory baseRunner 0 1 10 = [((0 : ℚ), (1 : ℚ)), (1, -10)] := by
    norm_num [augmentedTrainingHistory, compressed_training_history, dictOfList, dictInsert,
      baseRunner]
  have hc : ∀ p ∈ augmentedTrainingHistory baseRunner 0 1 10,
      (fun t : ℚ => 1 - 11 * t) p.1 = p.2 := by
    rw [haug]
    intro p hp
    simp only [List.mem_cons, List.not_mem_nil, or_false] at hp
    rcases hp with rfl | rfl <;> norm_num
  exact ⟨hc, claim_C6 baseRunner (fun t : ℚ => 1 - 11 * t) hc⟩

/-! ## Claim C7: reset_training -/

/-- C7, counterexample.  The claim states that `reset_training` resets
`best_val_metric_value` to the minimal sentinel for the configured
comparison direction.  The code always writes the constant `0`: under
the lower-is-better direction (`is_higher_metric_better = false`) a
pre-reset best of `5` accepts the improved metric `3` as a new best,
but after the reset to `0` the same metric `3` is rejected — `0` is the
extreme best (not worst) value for positive lower-is-better metrics, so
it is not a minimal sentinel for that direction. -/
theorem claim_C7_counterexample :
    (reset_training { baseRunner with
        is_higher_metric_better := false,
        best_val_metric_value := 5 }).best_val_metric_value = 0 ∧
      is_best_metric false 3 5 = true ∧
      is_best_metric false 3 0 = false := by
  refine ⟨rfl, ?_, ?_⟩ <;> norm_num [is_best_metric]

/-- C7, amended: `reset_training` sets `training_epoch_count` to `0`
and `best_val_metric_value` to the constant `0`, irrespective of the
configured comparison direction (the loop invokes it whenever the
target compression rate changed within the permitted bounds,
training_loop.py line 127). -/
theorem claim_C7 (r : Runner) :
    (reset_training r).training_epoch_count = 0 ∧
      (reset_training r).best_val_metric_value = 0 ∧
      (reset_training r).is_higher_metric_better = r.is_higher_metric_better :=
  ⟨rfl, rfl, rfl⟩

/-! ## Lemmas about Python max over a list -/

/-- The result of folding `max` is an element of the folded list. -/
lemma foldl_max_mem (xs : List ℚ) (x : ℚ) : xs.foldl max x ∈ x :: xs := by
  induction xs generalizing x with
  | nil => simp
  | cons y ys ih =>
      simp only [List.foldl_cons]
      rcases max_choice x y with hm | hm <;> rw [hm]
      · rcases List.mem_cons.mp (ih x) with h1 | h2
        · rw [h1]
          exact List.mem_cons_self _ _
        · exact List.mem_cons_of_mem _ (List.mem_cons_of_mem _ h2)
      · rcases List.mem_cons.mp (ih y) with h1 | h2
        · rw [h1]
          exact List.mem_cons_of_mem _ (List.mem_cons_self _ _)
        · exact List.mem_cons_of_mem _ (List.mem_cons_of_mem _ h2)

/-- Every element of the folded list is at most the folded `max`. -/
lemma le_foldl_max (xs : List ℚ) (x : ℚ) : ∀ y ∈ x :: xs, y ≤ xs.foldl max x := by
  induction xs generalizing x with
  | nil =>
      intro y hy
      simp only [List.mem_singleton] at hy
      simp [hy]
  | cons z zs ih =>
      intro y hy
      simp only [List.foldl_cons]
      rcases List.mem_cons.mp hy with h1 | h2
      · rw [h1]
        exact le_trans (le_max_left x z) (ih (max x z) (max x z) (List.mem_cons_self _ _))
      · rcases List.mem_cons.mp h2 with h3 | h4
        · rw [h3]
          exact le_trans (le_max_right x z) (ih (max x z) (max x z) (List.mem_cons_self _ _))
        · exact ih (max x z) y (List.mem_cons_of_mem _ h4)

/-! ## Claim C1: best-checkpoint selection -/

/-- C1: `load_best_checkpoint` succeeds exactly on histories with at
least one record of non-negative accuracy budget, returning a recorded
rate of non-negative budget that is maximal among all such rates; on a
history whose recorded budgets are all negative it fails with the hard
error of Python `max()` on an empty sequence, which propagates to the
caller. -/
theorem claim_C1 (r : Runner) :
    ((∃ p ∈ r._compressed_training_history, 0 ≤ p.2) →
      ∃ rate, load_best_checkpoint r = Except.ok rate ∧
        (∃ b, (rate, b) ∈ r._compressed_training_history ∧ 0 ≤ b) ∧
        ∀ p ∈ r._compressed_training_history, 0 ≤ p.2 → p.1 ≤ rate) ∧
      ((∀ p ∈ r._compressed_training_history, p.2 < 0) →
        load_best_checkpoint r = Except.error emptyHistoryMsg) := by
  constructor
  · intro h
    obtain ⟨p0, hp0mem, hp0⟩ := h
    have hpf : p0 ∈ r._compressed_training_history.filter (fun p => decide (0 ≤ p.2)) :=
      List.mem_filter.mpr ⟨hp0mem, by simpa using hp0⟩
    rcases hc : (r._compressed_training_history.filter
        (fun p => decide (0 ≤ p.2))).map (fun p => p.1) with _ | ⟨c, cs⟩
    · exfalso
      have hm : p0.1 ∈ (r._compressed_training_history.filter
          (fun p => decide (0 ≤ p.2))).map (fun p => p.1) := List.mem_map_of_mem _ hpf
      rw [hc] at hm
      simp at hm
    · refine ⟨cs.foldl max c, ?_, ?_, ?_⟩
      · simp only [load_best_checkpoint]
        rw [hc]
        rfl
      · have hm : cs.foldl max c ∈ c :: cs := foldl_max_mem cs c
        rw [← hc] at hm
        obtain ⟨q, hqf, hq1⟩ := List.mem_map.mp hm
        obtain ⟨hqmem, hq2⟩ := List.mem_filter.mp hqf
        refine ⟨q.2, ?_, by simpa using hq2⟩
        rw [← hq1]
        simpa using hqmem
      · intro p hpmem hple
        have hpf2 : p ∈ r._compressed_training_history.filter (fun p => decide (0 ≤ p.2)) :=
          List.mem_filter.mpr ⟨hpmem, by simpa using hple⟩
        have hm : p.1 ∈ (r._compressed_training_history.filter
            (fun p => decide (0 ≤ p.2))).map (fun p => p.1) := List.mem_map_of_mem _ hpf2
        rw [hc] at hm
        exact le_foldl_max cs c p.1 hm
  · intro h
    have hnil : r._compressed_training_history.filter (fun p => decide (0 ≤ p.2)) = [] := by
      rw [List.filter_eq_nil_iff]
      intro a ha
      simpa using not_le.mpr (h a ha)
    simp only [load_best_checkpoint]
    rw [hnil]
    rfl

/-- C1, witness: on the example history
`{0.1 → +2.0, 0.3 → +0.5, 0.5 → -1.0}` of the specification, the
non-emptiness hypothesis holds and the selection succeeds with a
maximal feasible rate. -/
theorem claim_C1_witness :
    (∃ p ∈ specExampleRunner._compressed_training_history, 0 ≤ p.2) ∧
      (∃ rate, load_best_checkpoint specExampleRunner = Except.ok rate ∧
        (∃ b, (rate, b) ∈ specExampleRunner._compressed_training_history ∧ 0 ≤ b) ∧
        ∀ p ∈ specExampleRunner._compressed_training_history, 0 ≤ p.2 → p.1 ≤ rate) := by
  have h : ∃ p ∈ specExampleRunner._compressed_training_history, 0 ≤ p.2 := by
    refine ⟨(1/10, 2), ?_, by norm_num⟩
    simp [specExampleRunner]
  exact ⟨h, (claim_C1 specExampleRunner).1 h⟩

/-! ## Claim C8: step shrink on oscillation -/

/-- C8: in the sign-based policy, when the sign flag of the previous
adjustment is set and differs from the sign of the current best
accuracy budget, `compression_rate_step` is multiplied by
`step_reduction_factor`, and the returned step equals the budget sign
times the reduced step. -/
theorem claim_C8 (r : Runner) (s : ℚ)
    (h1 : r.was_compression_increased_on_prev_step = some s)
    (h2 : s ≠ npSign (r.best_val_metric_value - r.minimal_tolerable_accuracy)) :
    (uniform_decrease_compression_step_update r).2.compression_rate_step
        = r.compression_rate_step * r.step_reduction_factor ∧
      (uniform_decrease_compression_step_update r).1
        = npSign (r.best_val_metric_value - r.minimal_tolerable_accuracy)
            * (uniform_decrease_compression_step_update r).2.compression_rate_step := by
  unfold uniform_decrease_compression_step_update
  simp only [h1, h2, if_true, ne_eq, not_false_iff]
  constructor <;> simp [h2]

/-- C8, witness: a runner whose previous-adjustment sign flag is `+1`
while the current best accuracy budget is `0` (sign `0`). -/
theorem claim_C8_witness :
    ({ baseRunner with was_compression_increased_on_prev_step := some 1 }
        : Runner).was_compression_increased_on_prev_step = some 1 ∧
      ((1 : ℚ) ≠ npSign (({ baseRunner with was_compression_increased_on_prev_step := some 1 }
          : Runner).best_val_metric_value
          - ({ baseRunner with was_compression_increased_on_prev_step := some 1 }
              : Runner).minimal_tolerable_accuracy)) ∧
      ((uniform_decrease_compression_step_update
          { baseRunner with was_compression_increased_on_prev_step := some 1 }
            ).2.compression_rate_step
          = ({ baseRunner with was_compression_increased_on_prev_step := some 1 }
              : Runner).compression_rate_step
            * ({ baseRunner with was_compression_increased_on_prev_step := some 1 }
                : Runner).step_reduction_factor ∧
        (uniform_decrease_compression_step_update
            { baseRunner with was_compression_increased_on_prev_step := some 1 }).1
          = npSign (({ baseRunner with was_compression_increased_on_prev_step := some 1 }
              : Runner).best_val_metric_value
              - ({ baseRunner with was_compression_increased_on_prev_step := some 1 }
                  : Runner).minimal_tolerable_accuracy)
            * (uniform_decrease_compression_step_update
                { baseRunner with was_compression_increased_on_prev_step := some 1 }
                  ).2.compression_rate_step) := by
  have hs : (1 : ℚ) ≠ npSign (({ baseRunner with
      was_compression_increased_on_prev_step := some 1 } : Runner).best_val_metric_value
      - ({ baseRunner with was_compression_increased_on_prev_step := some 1 }
          : Runner).minimal_tolerable_accuracy) := by
    norm_num [npSign, baseRunner]
  exact ⟨rfl, hs, claim_C8 _ 1 rfl hs⟩

/-! ## Claim C10: duplicate rates, list versus mapping -/

/-- C10: `update_training_history` appends each record and never
removes earlier records, and `load_best_checkpoint` filters that full
record list rather than the deduplicated mapping: on the history where
rate `1/2` is first recorded with budget `+2` and later re-recorded
with budget `-1`, `load_best_checkpoint` still selects `1/2` even
though `compressed_training_history` reports the negative budget `-1`
for it. -/
theorem claim_C10 :
    (∀ (r : Runner) (rate metric : ℚ),
        (update_training_history r rate metric)._compressed_training_history
          = r._compressed_training_history
              ++ [(rate, metric - r.minimal_tolerable_accuracy)]) ∧
      load_best_checkpoint
          (update_training_history (update_training_history baseRunner (1/2) 2) (1/2) (-1))
        = Except.ok (1/2) ∧
      dictGet (compressed_training_history
          (update_training_history (update_training_history baseRunner (1/2) 2) (1/2) (-1)))
          (1/2)
        = some (-1) ∧
      ((-1 : ℚ) < 0) := by
  refine ⟨fun r rate metric => rfl, ?_, ?_, by norm_num⟩
  · norm_num [load_best_checkpoint, update_training_history, baseRunner, pyMax]
  · norm_num [update_training_history, compressed_training_history, dictOfList, dictInsert,
      dictGet, baseRunner]

/-! ## Lemmas about np.argmin and np.linspace -/

/-- Invariant of the `np.argmin` accumulator, phrased against an
ambient labelling `labelVal` of indices by values: if the remaining
list agrees with the labelling from position `i` on and the carried
best index `bi` is labelled with the carried best value `bv`, then the
returned index is labelled by a value that is at most `bv` and at most
every remaining element, and is either the carried index or one of the
positions of the remaining list. -/
lemma npArgminAux_le (labelVal : ℕ → ℚ) :
    ∀ (xs : List ℚ) (i bi : ℕ) (bv : ℚ),
      (∀ j, j < xs.length → labelVal (i + j) = xs.getD j 0) →
      labelVal bi = bv →
      labelVal (npArgminAux xs i bi bv) ≤ bv ∧
        (∀ x ∈ xs, labelVal (npArgminAux xs i bi bv) ≤ x) ∧
        (npArgminAux xs i bi bv = bi ∨
          ∃ j, j < xs.length ∧ npArgminAux xs i bi bv = i + j) := by
  intro xs
  induction xs with
  | nil =>
      intro i bi bv hcons hbi
      exact ⟨le_of_eq hbi, by simp, Or.inl rfl⟩
  | cons x xs ih =>
      intro i bi bv hcons hbi
      have hx : labelVal i = x := by simpa using hcons 0 (by simp)
      have hcons2 : ∀ j, j < xs.length → labelVal (i + 1 + j) = xs.getD j 0 := by
        intro j hj
        have h := hcons (j + 1) (by simpa using Nat.succ_lt_succ hj)
        have harith : i + (j + 1) = i + 1 + j := by omega
        rw [harith] at h
        simpa using h
      by_cases hlt : x < bv
      · simp only [npArgminAux, hlt, if_true]
        obtain ⟨a1, a2, a3⟩ := ih (i + 1) i x hcons2 hx
        refine ⟨le_trans a1 (le_of_lt hlt), ?_, ?_⟩
        · intro y hy
          rcases List.mem_cons.mp hy with rfl | hmem
          · exact a1
          · exact a2 y hmem
        · rcases a3 with h | ⟨j, hj, hjj⟩
          · exact Or.inr ⟨0, by simp, by simpa using h⟩
          · refine Or.inr ⟨j + 1, by simpa using Nat.succ_lt_succ hj, ?_⟩
            rw [hjj]
            omega
      · simp only [npArgminAux, hlt, if_false]
        obtain ⟨a1, a2, a3⟩ := ih (i + 1) bi bv hcons2 hbi
        refine ⟨a1, ?_, ?_⟩
        · intro y hy
          rcases List.mem_cons.mp hy with rfl | hmem
          · exact le_trans a1 (not_lt.mp hlt)
          · exact a2 y hmem
        · rcases a3 with h | ⟨j, hj, hjj⟩
          · exact Or.inl h
          · refine Or.inr ⟨j + 1, by simpa using Nat.succ_lt_succ hj, ?_⟩
            rw [hjj]
            omega

/-- `np.argmin` returns a valid index whose element is minimal. -/
lemma npArgmin_spec (l : List ℚ) (hl : l ≠ []) :
    npArgmin l < l.length ∧ ∀ x ∈ l, l.getD (npArgmin l) 0 ≤ x := by
  rcases l with _ | ⟨x, xs⟩
  · exact absurd rfl hl
  · have hcons : ∀ j, j < xs.length → (x :: xs).getD (1 + j) 0 = xs.getD j 0 := by
      intro j hj
      rw [Nat.add_comm 1 j]
      rfl
    have hbi : (x :: xs).getD 0 0 = x := rfl
    obtain ⟨a1, a2, a3⟩ :=
      npArgminAux_le (fun k => (x :: xs).getD k 0) xs 1 0 x hcons hbi
    have hres : npArgmin (x :: xs) = npArgminAux xs 1 0 x := rfl
    constructor
    · rw [hres]
      rcases a3 with h | ⟨j, hj, hjj⟩
      · rw [h]; simp
      · rw [hjj]; simp; omega
    · intro y hy
      rw [hres]
      rcases List.mem_cons.mp hy with rfl | hmem
      · exact a1
      · exact a2 y hmem

/-- The element selected by `np.argmin` over the image of `g` belongs
to the sampled list and minimises `g` over it. -/
lemma argmin_map_getD_spec (g : ℚ → ℚ) (l : List ℚ) (hl : l ≠ []) :
    l.getD (npArgmin (l.map g)) 0 ∈ l ∧
      ∀ x ∈ l, g (l.getD (npArgmin (l.map g)) 0) ≤ g x := by
  have hm : l.map g ≠ [] := by simpa using hl
  obtain ⟨hlen, hmin⟩ := npArgmin_spec (l.map g) hm
  rw [List.length_map] at hlen
  have hgetD : (l.map g).getD (npArgmin (l.map g)) 0
      = g (l.getD (npArgmin (l.map g)) 0) := by
    rw [List.getD_eq_getElem _ _ (by simpa using hlen), List.getD_eq_getElem _ _ hlen]
    exact List.getElem_map g
  constructor
  · rw [List.getD_eq_getElem _ _ hlen]
    exact List.getElem_mem hlen
  · intro x hx
    have h := hmin (g x) (List.mem_map_of_mem g hx)
    rwa [hgetD] at h

lemma linspace_length (a b : ℚ) (n : ℕ) : (linspace a b n).length = n := by
  unfold linspace
  rw [List.length_map, List.length_range]

lemma linspace_getD (a b : ℚ) (n i : ℕ) (h : i < n) :
    (linspace a b n).getD i 0 = a + (b - a) * i / ((n : ℚ) - 1) := by
  unfold linspace
  rw [List.getD_eq_getElem _ _ (by rw [List.length_map, List.length_range]; exact h)]
  rw [List.getElem_map]
  rw [List.getElem_range]

/-! ## Claim C2: the interpolation-based step update -/

/-- C2: `interpolate_compression_step_update` fits the curve of the
kind selected by the size of the augmented history (linear below 4
distinct sample points, cubic otherwise), samples it at the 1000
evenly spaced rates of `linspace 0 1 1000` (endpoints `0` and `1`
included, consecutive spacing `1/999`), selects a sampled rate whose
predicted accuracy budget has minimal absolute value, returns that
rate minus the current rate when `compression_rate_target` is `None`
and minus `compression_rate_target` otherwise, and stores the absolute
value of the returned delta in `compression_rate_step`. -/
theorem claim_C2 (f : InterpKind → List (ℚ × ℚ) → ℚ → ℚ) (r : Runner)
    (current_compression_rate : ℚ) :
    ∃ tgt : ℚ,
      interpolate_compression_step_update f r current_compression_rate 1000 10 0 1
          = (tgt - r.compression_rate_target.getD current_compression_rate,
             { r with compression_rate_step :=
                |tgt - r.compression_rate_target.getD current_compression_rate| }) ∧
        tgt ∈ linspace 0 1 1000 ∧
        (∀ x ∈ linspace 0 1 1000,
          |f (if (augmentedTrainingHistory r 0 1 10).length < 4 then InterpKind.linear
              else InterpKind.cubic) (augmentedTrainingHistory r 0 1 10) tgt|
            ≤ |f (if (augmentedTrainingHistory r 0 1 10).length < 4 then InterpKind.linear
                else InterpKind.cubic) (augmentedTrainingHistory r 0 1 10) x|) ∧
        (linspace 0 1 1000).length = 1000 ∧
        (linspace 0 1 1000).getD 0 0 = 0 ∧
        (linspace 0 1 1000).getD 999 0 = 1 ∧
        (∀ i : ℕ, i + 1 < 1000 →
          (linspace 0 1 1000).getD (i + 1) 0 - (linspace 0 1 1000).getD i 0 = 1/999) := by
  have hlen : (linspace 0 1 1000 : List ℚ).length = 1000 := linspace_length 0 1 1000
  have hne : (linspace 0 1 1000 : List ℚ) ≠ [] := by
    intro hcontra
    rw [hcontra] at hlen
    simp at hlen
  have hkind : ((augmentedTrainingHistory r 0 1 10).map (fun p => p.1)).length
      = (augmentedTrainingHistory r 0 1 10).length := List.length_map _ _
  set curve := f (if (augmentedTrainingHistory r 0 1 10).length < 4 then InterpKind.linear
      else InterpKind.cubic) (augmentedTrainingHistory r 0 1 10) with hcurve
  obtain ⟨hmem, hmin⟩ := argmin_map_getD_spec (fun x => |curve x|) (linspace 0 1 1000) hne
  refine ⟨(linspace 0 1 1000).getD
      (npArgmin ((linspace 0 1 1000).map (fun x => |curve x|))) 0, ?_, hmem, hmin, hlen, ?_, ?_, ?_⟩
  · unfold interpolate_compression_step_update
    rcases hT : r.compression_rate_target with _ | t <;>
      simp only [hT, Option.getD_none, Option.getD_some, List.map_map, List.length_map,
        Function.comp_def, ← hcurve]
  · rw [linspace_getD 0 1 1000 0 (by norm_num)]
    norm_num
  · rw [linspace_getD 0 1 1000 999 (by norm_num)]
    norm_num
  · intro i hi
    rw [linspace_getD 0 1 1000 (i + 1) hi, linspace_getD 0 1 1000 i (by omega)]
    push_cast
    ring_nf

/-- C2, witness: the statement instantiated at a concrete curve model,
runner and current rate. -/
theorem claim_C2_witness :
    ∃ tgt : ℚ,
      interpolate_compression_step_update constCurve baseRunner (1/2) 1000 10 0 1
          = (tgt - baseRunner.compression_rate_target.getD (1/2),
             { baseRunner with compression_rate_step :=
                |tgt - baseRunner.compression_rate_target.getD (1/2)| }) ∧
        tgt ∈ linspace 0 1 1000 ∧
        (∀ x ∈ linspace 0 1 1000,
          |constCurve (if (augmentedTrainingHistory baseRunner 0 1 10).length < 4
              then InterpKind.linear else InterpKind.cubic)
              (augmentedTrainingHistory baseRunner 0 1 10) tgt|
            ≤ |constCurve (if (augmentedTrainingHistory baseRunner 0 1 10).length < 4
                then InterpKind.linear else InterpKind.cubic)
                (augmentedTrainingHistory baseRunner 0 1 10) x|) ∧
        (linspace 0 1 1000).length = 1000 ∧
        (linspace 0 1 1000).getD 0 0 = 0 ∧
        (linspace 0 1 1000).getD 999 0 = 1 ∧
        (∀ i : ℕ, i + 1 < 1000 →
          (linspace 0 1 1000).getD (i + 1) 0 - (linspace 0 1 1000).getD i 0 = 1/999) :=
  claim_C2 constCurve baseRunner (1/2)

/-! ## Lemmas about traces and one loop-body execution -/

@[simp]
lemma countTrainEpochs_nil : countTrainEpochs [] = 0 := rfl

@[simp]
lemma countTrainEpochs_enter (tr : List Event) :
    countTrainEpochs (Event.enterIteration :: tr) = countTrainEpochs tr := by
  simp [countTrainEpochs, List.countP_cons]

@[simp]
lemma countTrainEpochs_load (q : ℚ) (tr : List Event) :
    countTrainEpochs (Event.loadBestCheckpoint q :: tr) = countTrainEpochs tr := by
  simp [countTrainEpochs, List.countP_cons]

@[simp]
lemma countTrainEpochs_train (k : ℕ) (tr : List Event) :
    countTrainEpochs (Event.trainEpoch k :: tr) = countTrainEpochs tr + 1 := by
  simp [countTrainEpochs, List.countP_cons]

@[simp]
lemma countTrainEpochs_append (tr1 tr2 : List Event) :
    countTrainEpochs (tr1 ++ tr2) = countTrainEpochs tr1 + countTrainEpochs tr2 := by
  simp [countTrainEpochs, List.countP_append]

@[simp]
lemma validate_cumulative (r : Runner) (v : ℚ) :
    (validate r v).cumulative_epoch_count = r.cumulative_epoch_count := by
  unfold validate; split <;> rfl

@[simp]
lemma validate_maxEpochs (r : Runner) (v : ℚ) :
    (validate r v).maximal_total_epochs = r.maximal_total_epochs := by
  unfold validate; split <;> rfl

@[simp]
lemma train_epoch_cumulative (vf : ℕ → ℚ) (r : Runner) :
    (train_epoch vf r).2.cumulative_epoch_count = r.cumulative_epoch_count + 1 := by
  simp [train_epoch]

@[simp]
lemma train_epoch_maxEpochs (vf : ℕ → ℚ) (r : Runner) :
    (train_epoch vf r).2.maximal_total_epochs = r.maximal_total_epochs := by
  simp [train_epoch]

@[simp]
lemma historySnapshot_cumulative (r : Runner) :
    (historySnapshot r).cumulative_epoch_count = r.cumulative_epoch_count := by
  unfold historySnapshot; split <;> rfl

@[simp]
lemma historySnapshot_maxEpochs (r : Runner) :
    (historySnapshot r).maximal_total_epochs = r.maximal_total_epochs := by
  unfold historySnapshot; split <;> rfl

@[simp]
lemma interpolate_step_update_cumulative (f : InterpKind → List (ℚ × ℚ) → ℚ → ℚ)
    (r : Runner) (c : ℚ) (n : ℕ) (k a b : ℚ) :
    (interpolate_compression_step_update f r c n k a b).2.cumulative_epoch_count
      = r.cumulative_epoch_count := by
  unfold interpolate_compression_step_update; split <;> rfl

@[simp]
lemma interpolate_step_update_maxEpochs (f : InterpKind → List (ℚ × ℚ) → ℚ → ℚ)
    (r : Runner) (c : ℚ) (n : ℕ) (k a b : ℚ) :
    (interpolate_compression_step_update f r c n k a b).2.maximal_total_epochs
      = r.maximal_total_epochs := by
  unfold interpolate_compression_step_update; split <;> rfl

@[simp]
lemma update_target_cumulative (f : InterpKind → List (ℚ × ℚ) → ℚ → ℚ)
    (r : Runner) (c : ℚ) :
    (update_target_compression_rate f r c).2.cumulative_epoch_count
      = r.cumulative_epoch_count := by
  unfold update_target_compression_rate
  rcases h : r.compression_rate_target with _ | t <;> simp [h]
  split <;> simp

@[simp]
lemma update_target_maxEpochs (f : InterpKind → List (ℚ × ℚ) → ℚ → ℚ)
    (r : Runner) (c : ℚ) :
    (update_target_compression_rate f r c).2.maximal_total_epochs
      = r.maximal_total_epochs := by
  unfold update_target_compression_rate
  rcases h : r.compression_rate_target with _ | t <;> simp [h]
  split <;> simp

@[simp]
lemma reset_training_cumulative (r : Runner) :
    (reset_training r).cumulative_epoch_count = r.cumulative_epoch_count := rfl

@[simp]
lemma reset_training_maxEpochs (r : Runner) :
    (reset_training r).maximal_total_epochs = r.maximal_total_epochs := rfl

/-- A loop-body execution that continues the loop advances
`cumulative_epoch_count` by exactly one, keeps `maximal_total_epochs`,
and records exactly one training epoch in its trace. -/
lemma searchIter_next_state (f : InterpKind → List (ℚ × ℚ) → ℚ → ℚ) (vf : ℕ → ℚ)
    (r r' : Runner) (ctrl ctrl' : ℚ) (tr : List Event)
    (h : searchIter f vf r ctrl = IterResult.next tr r' ctrl') :
    r'.cumulative_epoch_count = r.cumulative_epoch_count + 1 ∧
      r'.maximal_total_epochs = r.maximal_total_epochs ∧
      countTrainEpochs tr = 1 := by
  unfold searchIter at h
  set upd := update_target_compression_rate f (historySnapshot r) ctrl with hupd
  by_cases hb : upd.1
  · simp only [hb, if_true] at h
    rcases ht : upd.2.compression_rate_target with _ | t <;> simp only [ht] at h
    · cases h
    · by_cases h1 : t < upd.2.minimal_compression_rate
      · simp [h1] at h
      · by_cases h2 : upd.2.maximal_compression_rate < t
        · simp [h1, h2] at h
        · simp only [h1, h2, if_false, trainStep] at h
          cases h
          refine ⟨?_, ?_, ?_⟩
          · simp [hupd]
          · simp [hupd]
          · simp
  · simp only [hb, if_false, trainStep] at h
    cases h
    refine ⟨?_, ?_, ?_⟩
    · simp [hupd]
    · simp [hupd]
    · simp

/-! ## Claim C3: bound checks on a changed target -/

/-- C3: assume the loop condition holds and the target-rate update of
this iteration reports a change (`was_compression_rate_changed`) with
new target `t`.  If `t` is strictly below `minimal_compression_rate`,
the loop stops with the fatal constraint-infeasibility error before
running another training epoch (the trace of the whole remaining run is
just the iteration entry: no training epoch, no checkpoint load, for
every validation oracle).  Otherwise, if `t` is strictly above
`maximal_compression_rate`, the loop immediately returns the model as a
successful early termination, again with no further training epoch and
without the final best-checkpoint rollback.  (When
`minimal_compression_rate ≤ maximal_compression_rate`, as with the
default bounds `0.05 ≤ 0.95`, a target above the maximum is never below
the minimum, so the first guard of the second part is vacuous.) -/
theorem claim_C3 (f : InterpKind → List (ℚ × ℚ) → ℚ → ℚ) (vf : ℕ → ℚ) (r r2 : Runner)
    (ctrl t : ℚ)
    (hcond : r.minimal_compression_rate_step ≤ r.compression_rate_step ∧
      r.cumulative_epoch_count < r.maximal_total_epochs)
    (hupd : update_target_compression_rate f (historySnapshot r) ctrl = (true, r2))
    (htgt : r2.compression_rate_target = some t) :
    (t < r2.minimal_compression_rate →
      searchLoop f vf r ctrl = ([Event.enterIteration], Except.error infeasibleMsg)) ∧
      (¬ t < r2.minimal_compression_rate → r2.maximal_compression_rate < t →
        searchLoop f vf r ctrl
          = ([Event.enterIteration], Except.ok (LoopOutcome.maxRateReached r2))) := by
  constructor
  · intro hlt
    have hit : searchIter f vf r ctrl = IterResult.fatal infeasibleMsg := by
      simp [searchIter, hupd, htgt, hlt]
    rw [searchLoop, dif_pos hcond]
    split
    next msg heq =>
      rw [hit] at heq
      cases heq
      rfl
    next r2x heq =>
      rw [hit] at heq
      cases heq
    next trx r2x ctrlx heq =>
      rw [hit] at heq
      cases heq
  · intro hnl hgt
    have hit : searchIter f vf r ctrl = IterResult.earlyReturn r2 := by
      simp [searchIter, hupd, htgt, hnl, hgt]
    rw [searchLoop, dif_pos hcond]
    split
    next msg heq =>
      rw [hit] at heq
      cases heq
    next r2x heq =>
      rw [hit] at heq
      cases heq
      rfl
    next trx r2x ctrlx heq =>
      rw [hit] at heq
      cases heq

/-! ### Evaluation of the predictor at the constant curve model -/

/-- The `np.argmin` accumulator keeps the carried index when no later
element is strictly smaller than the carried value. -/
lemma npArgminAux_eq_of_ge (xs : List ℚ) :
    ∀ (i bi : ℕ) (bv : ℚ), (∀ x ∈ xs, bv ≤ x) → npArgminAux xs i bi bv = bi := by
  induction xs with
  | nil =>
      intro i bi bv _
      rfl
  | cons x xs ih =>
      intro i bi bv h
      have hx : ¬ x < bv := not_lt.mpr (h x (List.mem_cons_self _ _))
      simp only [npArgminAux, hx, if_false]
      exact ih (i + 1) bi bv (fun y hy => h y (List.mem_cons_of_mem _ hy))

/-- `np.argmin` of a constant list is the first index. -/
lemma npArgmin_eq_zero_of_const (l : List ℚ) (c : ℚ) (h : ∀ x ∈ l, x = c) :
    npArgmin l = 0 := by
  rcases l with _ | ⟨x, xs⟩
  · rfl
  · apply npArgminAux_eq_of_ge
    intro y hy
    rw [h x (List.mem_cons_self _ _), h y (List.mem_cons_of_mem _ hy)]

/-- With the constant curve model, the sampled curve values are all
equal, `np.argmin` picks index `0`, the predicted target rate is the
sample point `0`, and the interpolation-based update on `baseRunner`
returns the delta `0 - 1/2` with the step set to its absolute value. -/
lemma interpolate_const_baseRunner :
    interpolate_compression_step_update constCurve baseRunner (1/2) 1000 10 0 1
      = ((0 : ℚ) - 1/2, { baseRunner with compression_rate_step := |(0 : ℚ) - 1/2| }) := by
  have hzero : npArgmin ((linspace 0 1 1000).map
      (fun x => |constCurve (if (augmentedTrainingHistory baseRunner 0 1 10).length < 4
          then InterpKind.linear else InterpKind.cubic)
        (augmentedTrainingHistory baseRunner 0 1 10) x|)) = 0 := by
    apply npArgmin_eq_zero_of_const _ 37
    intro y hy
    obtain ⟨w, hw, rfl⟩ := List.mem_map.mp hy
    norm_num [constCurve]
  have hg0 : (linspace 0 1 1000).getD 0 0 = 0 := by
    rw [linspace_getD 0 1 1000 0 (by norm_num)]
    norm_num
  have hbT : baseRunner.compression_rate_target = none := rfl
  unfold interpolate_compression_step_update
  simp only [List.map_map, List.length_map, Function.comp_def, hbT, hzero, hg0]

/-- The first target update on `baseRunner` (target not yet set) with
the constant curve model: the flag is raised and the new target is
`1/2 + (0 - 1/2) = 0`. -/
lemma update_target_const_baseRunner :
    update_target_compression_rate constCurve (historySnapshot baseRunner) (1/2)
      = (true, infeasibleTargetRunner) := by
  have hsnap : historySnapshot baseRunner = baseRunner := rfl
  have hbT : baseRunner.compression_rate_target = none := rfl
  rw [hsnap]
  unfold update_target_compression_rate
  simp only [hbT, interpolate_const_baseRunner]
  norm_num [npSign, infeasibleTargetRunner, baseRunner]

/-- C3, witness: on `baseRunner` with controller rate `1/2` and the
constant curve model, the loop condition holds, the first iteration
changes the target to `0 < 0.05 = minimal_compression_rate`, and the
loop stops at once with the constraint-infeasibility error. -/
theorem claim_C3_witness :
    (baseRunner.minimal_compression_rate_step ≤ baseRunner.compression_rate_step ∧
      baseRunner.cumulative_epoch_count < baseRunner.maximal_total_epochs) ∧
      update_target_compression_rate constCurve (historySnapshot baseRunner) (1/2)
        = (true, infeasibleTargetRunner) ∧
      infeasibleTargetRunner.compression_rate_target = some 0 ∧
      ((0 : ℚ) < infeasibleTargetRunner.minimal_compression_rate) ∧
      searchLoop constCurve constMetric baseRunner (1/2)
        = ([Event.enterIteration], Except.error infeasibleMsg) := by
  have hcond : baseRunner.minimal_compression_rate_step ≤ baseRunner.compression_rate_step ∧
      baseRunner.cumulative_epoch_count < baseRunner.maximal_total_epochs := by
    constructor <;> norm_num [baseRunner]
  have hlt : (0 : ℚ) < infeasibleTargetRunner.minimal_compression_rate := by
    norm_num [infeasibleTargetRunner, baseRunner]
  exact ⟨hcond, update_target_const_baseRunner, rfl, hlt,
    (claim_C3 constCurve constMetric baseRunner infeasibleTargetRunner (1/2) 0 hcond
      update_target_const_baseRunner rfl).1 hlt⟩

/-! ## Claim C9: loop condition and termination -/

/-- The number of training epochs run by the search loop is bounded by
the remaining epoch budget. -/
lemma countTrain_searchLoop_le (f : InterpKind → List (ℚ × ℚ) → ℚ → ℚ) (vf : ℕ → ℚ) :
    ∀ (n : ℕ) (r : Runner) (ctrl : ℚ),
      r.maximal_total_epochs - r.cumulative_epoch_count ≤ n →
      countTrainEpochs (searchLoop f vf r ctrl).1 ≤ n := by
  intro n
  induction n with
  | zero =>
      intro r ctrl hle
      have hnc : ¬ (r.minimal_compression_rate_step ≤ r.compression_rate_step ∧
          r.cumulative_epoch_count < r.maximal_total_epochs) := by
        rintro ⟨_, h2⟩
        omega
      rw [searchLoop, dif_neg hnc]
      split
      next rate heq => simp
      next msg heq => simp
  | succ n ih =>
      intro r ctrl hle
      by_cases hc : r.minimal_compression_rate_step ≤ r.compression_rate_step ∧
          r.cumulative_epoch_count < r.maximal_total_epochs
      · rw [searchLoop, dif_pos hc]
        split
        next msg heq => simp
        next r2x heq => simp
        next trx r2x ctrlx heq =>
          obtain ⟨h1, h2, h3⟩ := searchIter_next_state f vf r r2x ctrl ctrlx trx heq
          have hih := ih r2x ctrlx (by omega)
          simp only [countTrainEpochs_enter, countTrainEpochs_append, h3]
          omega
      · rw [searchLoop, dif_neg hc]
        split <;> simp

/-- C9: the search loop enters a further iteration exactly when
`compression_rate_step ≥ minimal_compression_rate_step` and
`cumulative_epoch_count < maximal_total_epochs`: when the condition
fails the loop immediately proceeds to the best-checkpoint rollback
(whose failure on an all-negative history propagates as an error), and
when it holds the next recorded event is an iteration entry.  Since
every iteration runs exactly one training epoch (incrementing
`cumulative_epoch_count`), the number of training epochs the loop runs
is bounded by the remaining epoch budget — the modelled loop is a
well-founded (hence terminating) recursion on that budget. -/
theorem claim_C9 (f : InterpKind → List (ℚ × ℚ) → ℚ → ℚ) (vf : ℕ → ℚ)
    (r : Runner) (ctrl : ℚ) :
    (¬ (r.minimal_compression_rate_step ≤ r.compression_rate_step ∧
        r.cumulative_epoch_count < r.maximal_total_epochs) →
      searchLoop f vf r ctrl
        = (match load_best_checkpoint r with
           | Except.ok rate =>
              ([Event.loadBestCheckpoint rate], Except.ok (LoopOutcome.finished r rate))
           | Except.error msg => ([], Except.error msg))) ∧
      ((r.minimal_compression_rate_step ≤ r.compression_rate_step ∧
          r.cumulative_epoch_count < r.maximal_total_epochs) →
        (searchLoop f vf r ctrl).1.head? = some Event.enterIteration) ∧
      countTrainEpochs (searchLoop f vf r ctrl).1
        ≤ r.maximal_total_epochs - r.cumulative_epoch_count := by
  refine ⟨?_, ?_, ?_⟩
  · intro hnc
    rw [searchLoop, dif_neg hnc]
  · intro hc
    rw [searchLoop, dif_pos hc]
    split
    next msg heq => rfl
    next r2x heq => rfl
    next trx r2x ctrlx heq => rfl
  · exact countTrain_searchLoop_le f vf _ r ctrl le_rfl

/-- C9, witness: a runner whose epoch budget is exhausted fails the
loop condition and proceeds straight to the rollback. -/
theorem claim_C9_witness :
    (¬ (finishedRunner.minimal_compression_rate_step ≤ finishedRunner.compression_rate_step ∧
        finishedRunner.cumulative_epoch_count < finishedRunner.maximal_total_epochs)) ∧
      searchLoop constCurve constMetric finishedRunner 0
        = (match load_best_checkpoint finishedRunner with
           | Except.ok rate =>
              ([Event.loadBestCheckpoint rate],
                Except.ok (LoopOutcome.finished finishedRunner rate))
           | Except.error msg => ([], Except.error msg)) := by
  have hnc : ¬ (finishedRunner.minimal_compression_rate_step
        ≤ finishedRunner.compression_rate_step ∧
      finishedRunner.cumulative_epoch_count < finishedRunner.maximal_total_epochs) := by
    rintro ⟨_, h2⟩
    norm_num [finishedRunner, baseRunner] at h2
  exact ⟨hnc, (claim_C9 constCurve constMetric finishedRunner 0).1 hnc⟩

end NNCF
